import Mathlib

/-!
Verification of the sqwad-landing content pipeline.

The repository is an Astro static site.  Its only structural logic is:
* the Zod content schema for agent records (`src/content/config.ts`),
* the fixed agent-page section composition (`src/components/sections/agent/index.ts`
  plus the page assembler described in the design document),
* the listing data (`src/lib/constants.ts`: `AGENT_PLACEHOLDER_IMAGE`, `AGENTS_LIST`)
  and the listing aggregator described in the design document.

Zod parsing of a JSON data file is embedded as a total function on a JSON value
type.  A `z.object` in its default mode reads only the declared keys (stripping
unknown ones), fails on any type mismatch or missing required key, treats an
absent key as `undefined` for `.optional()` and `.default(...)`, and validates
arrays all-or-nothing.
-/

namespace Sqwad

/-- JSON values as read from the agent data files. -/
inductive Json where
  | null : Json
  | str : String → Json
  | num : Int → Json
  | bool : Bool → Json
  | arr : List Json → Json
  | obj : List (String × Json) → Json

/-- Key lookup in a JSON object field list (JS objects have unique keys). -/
def lookup : List (String × Json) → String → Option Json
  | [], _ => none
  | (k, v) :: rest, key => if key = k then some v else lookup rest key

/-- `z.string()`: accepts exactly strings (`null` is rejected, as in Zod). -/
def jStr : Json → Option String
  | .str s => some s
  | _ => none

/-- `z.boolean()`. -/
def jBool : Json → Option Bool
  | .bool b => some b
  | _ => none

/-- `z.number()` (agent data uses integral numbers only). -/
def jNum : Json → Option Int
  | .num n => some n
  | _ => none

/-- All-or-nothing elementwise parse: one bad item fails the whole list. -/
def mapOpt (p : α → Option β) : List α → Option (List β)
  | [] => some []
  | x :: xs =>
    match p x, mapOpt p xs with
    | some y, some ys => some (y :: ys)
    | _, _ => none

/-- `z.array(p)`: the value must be an array and every item must parse. -/
def jList (p : Json → Option α) : Json → Option (List α)
  | .arr items => mapOpt p items
  | _ => none

/-- `.optional()`: an absent key parses to `none`; a present value must parse. -/
def jOpt (p : Json → Option α) : Option Json → Option (Option α)
  | none => some none
  | some j => (p j).map some

/-- `.default(d)`: an absent key yields `d`; a present value must parse. -/
def jDefault (p : Json → Option α) (d : α) : Option Json → Option α
  | none => some d
  | some j => p j

/-- A required `z.string()` field of an object. -/
def fieldStr (flds : List (String × Json)) (key : String) : Option String :=
  (lookup flds key).bind jStr

/-- A required `z.array(p)` field of an object. -/
def fieldList (p : Json → Option α) (flds : List (String × Json)) (key : String) :
    Option (List α) :=
  (lookup flds key).bind (jList p)

/-- `{ name, description }`, output of `skillSchema` (src/content/config.ts). -/
structure Skill where
  name : String
  description : String
  deriving DecidableEq

/-- `{ title, description }`, output of `useCaseSchema` (src/content/config.ts). -/
structure UseCase where
  title : String
  description : String
  deriving DecidableEq

/-- Output of `codeExampleSchema`; `lang` is always filled (it has a default). -/
structure CodeExample where
  title : String
  code : String
  lang : String
  deriving DecidableEq

/-- `{ quote, explanation }`, the `philosophy` sub-object. -/
structure Philosophy where
  quote : String
  explanation : List String
  deriving DecidableEq

/-- A validated agent record: the output type of the `agents` collection schema
in src/content/config.ts, field for field. -/
structure AgentRecord where
  name : String
  slug : String
  tagline : String
  description : String
  accentColor : String
  emoji : Option String
  about : List String
  specialties : List String
  skills : List Skill
  useCases : List UseCase
  codeExamples : List CodeExample
  does : List String
  doesNot : List String
  mcpTools : Option (List String)
  philosophy : Philosophy
  draft : Bool
  order : Int
  deriving DecidableEq

/-- `skillSchema = z.object({ name: z.string(), description: z.string() })`. -/
def skillSchema (j : Json) : Option Skill :=
  match j with
  | .obj flds =>
    (fieldStr flds "name").bind fun name =>
    (fieldStr flds "description").bind fun description =>
    some ⟨name, description⟩
  | _ => none

/-- `useCaseSchema = z.object({ title: z.string(), description: z.string() })`. -/
def useCaseSchema (j : Json) : Option UseCase :=
  match j with
  | .obj flds =>
    (fieldStr flds "title").bind fun title =>
    (fieldStr flds "description").bind fun description =>
    some ⟨title, description⟩
  | _ => none

/-- `codeExampleSchema = z.object({ title: z.string(), code: z.string(),
lang: z.string().default('bash') })`. -/
def codeExampleSchema (j : Json) : Option CodeExample :=
  match j with
  | .obj flds =>
    (fieldStr flds "title").bind fun title =>
    (fieldStr flds "code").bind fun code =>
    (jDefault jStr "bash" (lookup flds "lang")).bind fun lang =>
    some ⟨title, code, lang⟩
  | _ => none

/-- The inline `philosophy: z.object({ quote: z.string(),
explanation: z.array(z.string()) })`. -/
def philosophySchema (j : Json) : Option Philosophy :=
  match j with
  | .obj flds =>
    (fieldStr flds "quote").bind fun quote =>
    (fieldList jStr flds "explanation").bind fun explanation =>
    some ⟨quote, explanation⟩
  | _ => none

/-- The required `philosophy` field of the agent object. -/
def fieldPhilosophy (flds : List (String × Json)) : Option Philosophy :=
  (lookup flds "philosophy").bind philosophySchema

/-- `validate`: parsing one content entry against the `agents` collection schema
of src/content/config.ts (Zod `z.object` in default strip mode), field by field
in source order. -/
def validate : Json → Option AgentRecord
  | .obj flds =>
    (fieldStr flds "name").bind fun name =>
    (fieldStr flds "slug").bind fun slug =>
    (fieldStr flds "tagline").bind fun tagline =>
    (fieldStr flds "description").bind fun description =>
    (fieldStr flds "accentColor").bind fun accentColor =>
    (jOpt jStr (lookup flds "emoji")).bind fun emoji =>
    (fieldList jStr flds "about").bind fun about =>
    (fieldList jStr flds "specialties").bind fun specialties =>
    (fieldList skillSchema flds "skills").bind fun skills =>
    (fieldList useCaseSchema flds "useCases").bind fun useCases =>
    (fieldList codeExampleSchema flds "codeExamples").bind fun codeExamples =>
    (fieldList jStr flds "does").bind fun does =>
    (fieldList jStr flds "doesNot").bind fun doesNot =>
    (jOpt (jList jStr) (lookup flds "mcpTools")).bind fun mcpTools =>
    (fieldPhilosophy flds).bind fun philosophy =>
    (jDefault jBool false (lookup flds "draft")).bind fun draft =>
    (jDefault jNum 999 (lookup flds "order")).bind fun order =>
    some ⟨name, slug, tagline, description, accentColor, emoji, about, specialties,
          skills, useCases, codeExamples, does, doesNot, mcpTools, philosophy,
          draft, order⟩
  | _ => none

/-- The keys declared by the `agents` collection schema, in source order. -/
def schemaKeys : List String :=
  ["name", "slug", "tagline", "description", "accentColor", "emoji", "about",
   "specialties", "skills", "useCases", "codeExamples", "does", "doesNot",
   "mcpTools", "philosophy", "draft", "order"]

/-- The required (non-optional, non-defaulted) keys of the schema. -/
def requiredKeys : List String :=
  ["name", "slug", "tagline", "description", "accentColor", "about",
   "specialties", "skills", "useCases", "codeExamples", "does", "doesNot",
   "philosophy"]

/-- The required plain-string keys of the schema. -/
def strKeys : List String :=
  ["name", "slug", "tagline", "description", "accentColor"]

/-- The required string-array keys of the schema. -/
def strListKeys : List String :=
  ["about", "specialties", "does", "doesNot"]

/-- The ten agent-page section kinds, in the order of the barrel export
src/components/sections/agent/index.ts. -/
inductive SectionTag where
  | hero
  | about
  | specialties
  | skills
  | useCases
  | examples
  | dosDonts
  | config
  | philosophy
  | cta
  deriving DecidableEq

/-- A rendered section together with the slice of the record it receives
(props as documented for each Agent* component). -/
inductive RenderedSection where
  | hero (name tagline accentColor : String)
  | about (name : String) (paragraphs : List String)
  | specialties (specialties : List String)
  | skills (skills : List Skill) (accentColor : String)
  | useCases (useCases : List UseCase) (agentName : String)
  | examples (examples : List CodeExample)
  | dosDonts (does doesNot : List String) (agentName : String)
  | config (mcpTools : List String)
  | philosophy (philosophy : Philosophy) (accentColor : String)
  | cta (agentName : String)
  deriving DecidableEq

/-- The kind of a rendered section. -/
def sectionKind : RenderedSection → SectionTag
  | .hero .. => .hero
  | .about .. => .about
  | .specialties .. => .specialties
  | .skills .. => .skills
  | .useCases .. => .useCases
  | .examples .. => .examples
  | .dosDonts .. => .dosDonts
  | .config .. => .config
  | .philosophy .. => .philosophy
  | .cta .. => .cta

/-- Modelled from the spec: the page assembler (`assemble`, design document
section 4.2).  The agent page template and the Agent*.astro section components
are not under src/; only the barrel export src/components/sections/agent/index.ts
is, and it fixes the section order Hero, About, Specialties, Skills, UseCases,
Examples, DosDonts, Config, Philosophy, CTA.  Per the design document the Config
section renders only when `mcpTools` is present and non-empty, and every section
receives only its own slice of the record. -/
def assemble (r : AgentRecord) : List RenderedSection :=
  [RenderedSection.hero r.name r.tagline r.accentColor,
   RenderedSection.about r.name r.about,
   RenderedSection.specialties r.specialties,
   RenderedSection.skills r.skills r.accentColor,
   RenderedSection.useCases r.useCases r.name,
   RenderedSection.examples r.codeExamples,
   RenderedSection.dosDonts r.does r.doesNot r.name]
  ++ (match r.mcpTools with
      | some (t :: ts) => [RenderedSection.config (t :: ts)]
      | _ => [])
  ++ [RenderedSection.philosophy r.philosophy r.accentColor,
      RenderedSection.cta r.name]

/-- `AGENT_PLACEHOLDER_IMAGE` from src/lib/constants.ts. -/
def AGENT_PLACEHOLDER_IMAGE : String := "/images/agent-placeholder.png"

/-- `AgentCardData` from src/lib/types.ts: the listing-page projection. -/
structure AgentCardData where
  name : String
  slug : String
  tagline : String
  specialty : String
  image : String
  accentColor : String
  deriving DecidableEq

/-- Modelled from the spec: the input record shape of the listing aggregator
(design document section 4.3).  No such aggregator exists under src/ (the site
hardcodes `AGENTS_LIST`); the design document describes records carrying the
card fields plus a possibly missing `image` and the `draft` / `order` meta
fields. -/
structure ListingRecord where
  name : String
  slug : String
  tagline : String
  specialty : String
  image : Option String
  accentColor : String
  draft : Bool
  order : Int
  deriving DecidableEq

/-- Modelled from the spec: projection of a surviving record to the card shape;
a missing `image` falls back to the fixed placeholder path (section 4.3). -/
def project (r : ListingRecord) : AgentCardData :=
  ⟨r.name, r.slug, r.tagline, r.specialty, r.image.getD AGENT_PLACEHOLDER_IMAGE,
   r.accentColor⟩

/-- Stable insertion of a record into a list ordered ascending by `order`:
the new record goes before the first strictly-later position, after records
with the same `order`. -/
def insertByOrder (a : ListingRecord) : List ListingRecord → List ListingRecord
  | [] => [a]
  | b :: l => if a.order ≤ b.order then a :: b :: l else b :: insertByOrder a l

/-- Stable insertion sort ascending by `order`. -/
def sortByOrder : List ListingRecord → List ListingRecord
  | [] => []
  | a :: l => insertByOrder a (sortByOrder l)

/-- Modelled from the spec: `listAgents` (design document section 4.3) — drop
`draft` records, sort the survivors ascending by `order` with a stable sort,
and project each to `AgentCardData`. -/
def listAgents (rs : List ListingRecord) : List AgentCardData :=
  (sortByOrder (rs.filter fun r => !r.draft)).map project

/-- `AGENTS_LIST` from src/lib/constants.ts, entry for entry. -/
def AGENTS_LIST : List AgentCardData :=
  [⟨"Marco Astro", "marco-astro",
    "Le meilleur JavaScript, c'est celui qu'on n'envoie pas au client.",
    "Astro & Sites Statiques", AGENT_PLACEHOLDER_IMAGE, "#f97316"⟩,
   ⟨"Marco Tailwind", "marco-tailwind",
    "Pixel-perfect, responsive, et maintenable. Toujours.",
    "CSS & Tailwind", AGENT_PLACEHOLDER_IMAGE, "#ef4444"⟩,
   ⟨"Marco Angular", "marco-angular",
    "Enterprise-ready applications avec architecture solide.",
    "Angular", AGENT_PLACEHOLDER_IMAGE, "#dc2626"⟩,
   ⟨"Nova AI", "nova-ai",
    "Intelligence artificielle et machine learning intégrés.",
    "IA & ML", AGENT_PLACEHOLDER_IMAGE, "#8b5cf6"⟩,
   ⟨"Bruno Backend", "bruno-backend",
    "APIs robustes, scalables et sécurisées.",
    "Backend & APIs", AGENT_PLACEHOLDER_IMAGE, "#059669"⟩,
   ⟨"Kira DevOps", "kira-devops",
    "CI/CD, infrastructure as code, et déploiement continu.",
    "DevOps & CI/CD", AGENT_PLACEHOLDER_IMAGE, "#0891b2"⟩,
   ⟨"Shadow Security", "shadow-security",
    "Sécurité applicative et protection des données.",
    "Sécurité", AGENT_PLACEHOLDER_IMAGE, "#374151"⟩,
   ⟨"Flash Perf", "flash-perf",
    "Optimisation et performance à tous les niveaux.",
    "Performance", AGENT_PLACEHOLDER_IMAGE, "#eab308"⟩]

/-! ## Concrete content entries used as test inputs -/

/-- A minimal valid entry: every required field present, every optional or
defaulted field absent. -/
def minimalEntryFields : List (String × Json) :=
  [("name", .str "Marco Astro"), ("slug", .str "marco-astro"),
   ("tagline", .str "t"), ("description", .str "d"),
   ("accentColor", .str "#f97316"), ("about", .arr []),
   ("specialties", .arr []), ("skills", .arr []), ("useCases", .arr []),
   ("codeExamples", .arr []), ("does", .arr []), ("doesNot", .arr []),
   ("philosophy", .obj [("quote", .str "x"), ("explanation", .arr [.str "y"])])]

/-- The record the minimal entry validates to. -/
def minimalRecord : AgentRecord :=
  ⟨"Marco Astro", "marco-astro", "t", "d", "#f97316", none, [], [], [], [], [],
   [], [], none, ⟨"x", ["y"]⟩, false, 999⟩

/-- A valid entry whose single code example omits `lang`. -/
def entryNoLang : Json :=
  .obj [("name", .str "Marco Astro"), ("slug", .str "marco-astro"),
        ("tagline", .str "t"), ("description", .str "d"),
        ("accentColor", .str "#f97316"), ("about", .arr []),
        ("specialties", .arr []), ("skills", .arr []), ("useCases", .arr []),
        ("codeExamples", .arr [.obj [("title", .str "t"), ("code", .str "c")]]),
        ("does", .arr []), ("doesNot", .arr []),
        ("philosophy", .obj [("quote", .str "x"), ("explanation", .arr [.str "y"])])]

/-- The record `entryNoLang` validates to. -/
def recordNoLang : AgentRecord :=
  ⟨"Marco Astro", "marco-astro", "t", "d", "#f97316", none, [], [], [], [],
   [⟨"t", "c", "bash"⟩], [], [], none, ⟨"x", ["y"]⟩, false, 999⟩

/-- The object fields of a code example that omits `lang`. -/
def exampleNoLangFields : List (String × Json) :=
  [("title", .str "t"), ("code", .str "c")]

/-- A valid entry with slug "marco-astro". -/
def firstDuplicateEntry : Json :=
  .obj [("name", .str "Marco Astro"), ("slug", .str "marco-astro"),
        ("tagline", .str "t1"), ("description", .str "d1"),
        ("accentColor", .str "#f97316"), ("about", .arr []),
        ("specialties", .arr []), ("skills", .arr []), ("useCases", .arr []),
        ("codeExamples", .arr []), ("does", .arr []), ("doesNot", .arr []),
        ("philosophy", .obj [("quote", .str "q1"), ("explanation", .arr [.str "e1"])])]

/-- A different valid entry with the same slug "marco-astro". -/
def secondDuplicateEntry : Json :=
  .obj [("name", .str "Second Agent"), ("slug", .str "marco-astro"),
        ("tagline", .str "t2"), ("description", .str "d2"),
        ("accentColor", .str "#ef4444"), ("about", .arr []),
        ("specialties", .arr []), ("skills", .arr []), ("useCases", .arr []),
        ("codeExamples", .arr []), ("does", .arr []), ("doesNot", .arr []),
        ("philosophy", .obj [("quote", .str "q2"), ("explanation", .arr [.str "e2"])])]

/-- The record `firstDuplicateEntry` validates to. -/
def firstDuplicateRecord : AgentRecord :=
  ⟨"Marco Astro", "marco-astro", "t1", "d1", "#f97316", none, [], [], [], [],
   [], [], [], none, ⟨"q1", ["e1"]⟩, false, 999⟩

/-- The record `secondDuplicateEntry` validates to. -/
def secondDuplicateRecord : AgentRecord :=
  ⟨"Second Agent", "marco-astro", "t2", "d2", "#ef4444", none, [], [], [], [],
   [], [], [], none, ⟨"q2", ["e2"]⟩, false, 999⟩

/-! ## Inversion of `validate` -/

/-- Success of `validate` on an object determines every field lookup: the entry
parses exactly when each schema field parses, and the record collects the
results. -/
theorem validate_obj_some_iff (flds : List (String × Json)) (r : AgentRecord) :
    validate (.obj flds) = some r ↔
      (fieldStr flds "name" = some r.name ∧
       fieldStr flds "slug" = some r.slug ∧
       fieldStr flds "tagline" = some r.tagline ∧
       fieldStr flds "description" = some r.description ∧
       fieldStr flds "accentColor" = some r.accentColor ∧
       jOpt jStr (lookup flds "emoji") = some r.emoji ∧
       fieldList jStr flds "about" = some r.about ∧
       fieldList jStr flds "specialties" = some r.specialties ∧
       fieldList skillSchema flds "skills" = some r.skills ∧
       fieldList useCaseSchema flds "useCases" = some r.useCases ∧
       fieldList codeExampleSchema flds "codeExamples" = some r.codeExamples ∧
       fieldList jStr flds "does" = some r.does ∧
       fieldList jStr flds "doesNot" = some r.doesNot ∧
       jOpt (jList jStr) (lookup flds "mcpTools") = some r.mcpTools ∧
       fieldPhilosophy flds = some r.philosophy ∧
       jDefault jBool false (lookup flds "draft") = some r.draft ∧
       jDefault jNum 999 (lookup flds "order") = some r.order) := by
  constructor
  · intro h
    obtain ⟨nm, h1, h⟩ := Option.bind_eq_some.mp h
    obtain ⟨sl, h2, h⟩ := Option.bind_eq_some.mp h
    obtain ⟨tg, h3, h⟩ := Option.bind_eq_some.mp h
    obtain ⟨de, h4, h⟩ := Option.bind_eq_some.mp h
    obtain ⟨ac, h5, h⟩ := Option.bind_eq_some.mp h
    obtain ⟨em, h6, h⟩ := Option.bind_eq_some.mp h
    obtain ⟨ab, h7, h⟩ := Option.bind_eq_some.mp h
    obtain ⟨sp, h8, h⟩ := Option.bind_eq_some.mp h
    obtain ⟨sk, h9, h⟩ := Option.bind_eq_some.mp h
    obtain ⟨uc, h10, h⟩ := Option.bind_eq_some.mp h
    obtain ⟨ce, h11, h⟩ := Option.bind_eq_some.mp h
    obtain ⟨dl, h12, h⟩ := Option.bind_eq_some.mp h
    obtain ⟨dn, h13, h⟩ := Option.bind_eq_some.mp h
    obtain ⟨mt, h14, h⟩ := Option.bind_eq_some.mp h
    obtain ⟨ph, h15, h⟩ := Option.bind_eq_some.mp h
    obtain ⟨dr, h16, h⟩ := Option.bind_eq_some.mp h
    obtain ⟨od, h17, h⟩ := Option.bind_eq_some.mp h
    have he := Option.some.inj h
    subst he
    exact ⟨h1, h2, h3, h4, h5, h6, h7, h8, h9, h10, h11, h12, h13, h14, h15,
      h16, h17⟩
  · rintro ⟨h1, h2, h3, h4, h5, h6, h7, h8, h9, h10, h11, h12, h13, h14, h15,
      h16, h17⟩
    exact Option.bind_eq_some.mpr ⟨_, h1, Option.bind_eq_some.mpr ⟨_, h2,
      Option.bind_eq_some.mpr ⟨_, h3, Option.bind_eq_some.mpr ⟨_, h4,
      Option.bind_eq_some.mpr ⟨_, h5, Option.bind_eq_some.mpr ⟨_, h6,
      Option.bind_eq_some.mpr ⟨_, h7, Option.bind_eq_some.mpr ⟨_, h8,
      Option.bind_eq_some.mpr ⟨_, h9, Option.bind_eq_some.mpr ⟨_, h10,
      Option.bind_eq_some.mpr ⟨_, h11, Option.bind_eq_some.mpr ⟨_, h12,
      Option.bind_eq_some.mpr ⟨_, h13, Option.bind_eq_some.mpr ⟨_, h14,
      Option.bind_eq_some.mpr ⟨_, h15, Option.bind_eq_some.mpr ⟨_, h16,
      Option.bind_eq_some.mpr ⟨_, h17, rfl⟩⟩⟩⟩⟩⟩⟩⟩⟩⟩⟩⟩⟩⟩⟩⟩⟩

/-- One bad item fails the whole elementwise parse. -/
theorem mapOpt_eq_none_of_mem {p : α → Option β} {l : List α} {x : α}
    (hx : x ∈ l) (hp : p x = none) : mapOpt p l = none := by
  induction l with
  | nil => cases hx
  | cons a l ih =>
    rcases List.mem_cons.mp hx with hax | hx2
    · subst hax
      simp [mapOpt, hp]
    · cases hpa : p a <;> simp [mapOpt, hpa, ih hx2]

/-- Appending a field with a different key does not change a lookup. -/
theorem lookup_append_single (flds : List (String × Json)) (v : Json)
    {key k : String} (hne : key ≠ k) :
    lookup (flds ++ [(k, v)]) key = lookup flds key := by
  induction flds with
  | nil => simp [lookup, hne]
  | cons p rest ih =>
    obtain ⟨k2, v2⟩ := p
    by_cases hk2 : key = k2 <;> simp [lookup, hk2, ih]

/-! ## Claims about the content schema validator -/

/-- Claim C1 counterexample: on a valid entry whose code example omits `lang`,
`validate` fills `lang` with "bash", not "shell" — the schema's default is
`z.string().default('bash')`. -/
theorem validate_lang_default_not_shell :
    validate entryNoLang = some recordNoLang ∧
    recordNoLang.codeExamples.map CodeExample.lang = ["bash"] ∧
    ("bash" : String) ≠ "shell" :=
  ⟨rfl, rfl, by decide⟩

/-- Claim C1 (amended): for every code-example object that omits the `lang`
field, `codeExampleSchema` succeeds only with `lang = "bash"`. -/
theorem codeExampleSchema_omitted_lang_bash (flds : List (String × Json))
    (ce : CodeExample) (hl : lookup flds "lang" = none)
    (h : codeExampleSchema (.obj flds) = some ce) : ce.lang = "bash" := by
  obtain ⟨t, ht, h⟩ := Option.bind_eq_some.mp h
  obtain ⟨c, hc, h⟩ := Option.bind_eq_some.mp h
  obtain ⟨l, hlg, h⟩ := Option.bind_eq_some.mp h
  rw [hl] at hlg
  have he := Option.some.inj h
  subst he
  exact (Option.some.inj hlg).symm

/-- Claim C1 witness: the amended theorem at the concrete lang-less example. -/
theorem codeExampleSchema_omitted_lang_bash_witness :
    lookup exampleNoLangFields "lang" = none ∧
    codeExampleSchema (.obj exampleNoLangFields) = some ⟨"t", "c", "bash"⟩ ∧
    (CodeExample.mk "t" "c" "bash").lang = "bash" :=
  ⟨rfl, rfl,
   codeExampleSchema_omitted_lang_bash exampleNoLangFields ⟨"t", "c", "bash"⟩ rfl rfl⟩

/-- Claim C4: `validate` fails the whole entry — no partial success — on every
malformed input: an entry that is not an object, a missing required field, a
wrongly-typed value under any of the seventeen declared keys (the five string
fields, the four string-array fields, the three nested lists present as
non-arrays, `philosophy`, `emoji`, `mcpTools`, `draft`, `order`), or one
malformed item inside a nested list (skills, useCases, codeExamples). -/
theorem validate_rejects_invalid (e : Json)
    (h : (∀ flds : List (String × Json), e ≠ .obj flds) ∨
         (∃ flds : List (String × Json), e = .obj flds ∧
           ((∃ k, k ∈ requiredKeys ∧ lookup flds k = none) ∨
            (∃ k j, k ∈ strKeys ∧ lookup flds k = some j ∧ jStr j = none) ∨
            (∃ k j, k ∈ strListKeys ∧ lookup flds k = some j ∧
               jList jStr j = none) ∨
            (∃ j, lookup flds "skills" = some j ∧ jList skillSchema j = none) ∨
            (∃ j, lookup flds "useCases" = some j ∧
               jList useCaseSchema j = none) ∨
            (∃ j, lookup flds "codeExamples" = some j ∧
               jList codeExampleSchema j = none) ∨
            (∃ items it, lookup flds "skills" = some (.arr items) ∧ it ∈ items ∧
               skillSchema it = none) ∨
            (∃ items it, lookup flds "useCases" = some (.arr items) ∧
               it ∈ items ∧ useCaseSchema it = none) ∨
            (∃ items it, lookup flds "codeExamples" = some (.arr items) ∧
               it ∈ items ∧ codeExampleSchema it = none) ∨
            (∃ j, lookup flds "philosophy" = some j ∧
               philosophySchema j = none) ∨
            (∃ j, lookup flds "emoji" = some j ∧ jStr j = none) ∨
            (∃ j, lookup flds "mcpTools" = some j ∧ jList jStr j = none) ∨
            (∃ j, lookup flds "draft" = some j ∧ jBool j = none) ∨
            (∃ j, lookup flds "order" = some j ∧ jNum j = none)))) :
    validate e = none := by
  rcases h with hobj | ⟨flds, rfl, h⟩
  · cases e with
    | obj flds => exact absurd rfl (hobj flds)
    | null => rfl
    | str _ => rfl
    | num _ => rfl
    | bool _ => rfl
    | arr _ => rfl
  · cases hv : validate (.obj flds) with
    | none => rfl
    | some r =>
      exfalso
      obtain ⟨h1, h2, h3, h4, h5, h6, h7, h8, h9, h10, h11, h12, h13, h14, h15,
        h16, h17⟩ := (validate_obj_some_iff flds r).mp hv
      rcases h with hc | hc | hc | hc | hc | hc | hc | hc | hc | hc | hc | hc |
        hc | hc
      · obtain ⟨k, hk, hnone⟩ := hc
        simp only [requiredKeys, List.mem_cons, List.not_mem_nil, or_false] at hk
        rcases hk with rfl | rfl | rfl | rfl | rfl | rfl | rfl | rfl | rfl |
          rfl | rfl | rfl | rfl
        · simp [fieldStr, hnone] at h1
        · simp [fieldStr, hnone] at h2
        · simp [fieldStr, hnone] at h3
        · simp [fieldStr, hnone] at h4
        · simp [fieldStr, hnone] at h5
        · simp [fieldList, hnone] at h7
        · simp [fieldList, hnone] at h8
        · simp [fieldList, hnone] at h9
        · simp [fieldList, hnone] at h10
        · simp [fieldList, hnone] at h11
        · simp [fieldList, hnone] at h12
        · simp [fieldList, hnone] at h13
        · simp [fieldPhilosophy, hnone] at h15
      · obtain ⟨k, j, hk, hsome, hbad⟩ := hc
        simp only [strKeys, List.mem_cons, List.not_mem_nil, or_false] at hk
        rcases hk with rfl | rfl | rfl | rfl | rfl
        · simp [fieldStr, hsome, hbad] at h1
        · simp [fieldStr, hsome, hbad] at h2
        · simp [fieldStr, hsome, hbad] at h3
        · simp [fieldStr, hsome, hbad] at h4
        · simp [fieldStr, hsome, hbad] at h5
      · obtain ⟨k, j, hk, hsome, hbad⟩ := hc
        simp only [strListKeys, List.mem_cons, List.not_mem_nil, or_false] at hk
        rcases hk with rfl | rfl | rfl | rfl
        · simp [fieldList, hsome, hbad] at h7
        · simp [fieldList, hsome, hbad] at h8
        · simp [fieldList, hsome, hbad] at h12
        · simp [fieldList, hsome, hbad] at h13
      · obtain ⟨j, hsome, hbad⟩ := hc
        simp [fieldList, hsome, hbad] at h9
      · obtain ⟨j, hsome, hbad⟩ := hc
        simp [fieldList, hsome, hbad] at h10
      · obtain ⟨j, hsome, hbad⟩ := hc
        simp [fieldList, hsome, hbad] at h11
      · obtain ⟨items, it, hsome, hmem, hbad⟩ := hc
        rw [fieldList, hsome, Option.some_bind] at h9
        simp only [jList] at h9
        rw [mapOpt_eq_none_of_mem hmem hbad] at h9
        exact Option.noConfusion h9
      · obtain ⟨items, it, hsome, hmem, hbad⟩ := hc
        rw [fieldList, hsome, Option.some_bind] at h10
        simp only [jList] at h10
        rw [mapOpt_eq_none_of_mem hmem hbad] at h10
        exact Option.noConfusion h10
      · obtain ⟨items, it, hsome, hmem, hbad⟩ := hc
        rw [fieldList, hsome, Option.some_bind] at h11
        simp only [jList] at h11
        rw [mapOpt_eq_none_of_mem hmem hbad] at h11
        exact Option.noConfusion h11
      · obtain ⟨j, hsome, hbad⟩ := hc
        simp [fieldPhilosophy, hsome, hbad] at h15
      · obtain ⟨j, hsome, hbad⟩ := hc
        simp [jOpt, hsome, hbad] at h6
      · obtain ⟨j, hsome, hbad⟩ := hc
        simp [jOpt, hsome, hbad] at h14
      · obtain ⟨j, hsome, hbad⟩ := hc
        simp [jDefault, hsome, hbad] at h16
      · obtain ⟨j, hsome, hbad⟩ := hc
        simp [jDefault, hsome, hbad] at h17

/-- Claim C4 witness: an entry missing the required `slug` field is rejected,
as is an entry that is not an object at all. -/
theorem validate_rejects_invalid_witness :
    validate (.obj [("name", Json.str "x")]) = none ∧
    validate (Json.str "not-an-object") = none :=
  ⟨validate_rejects_invalid _
    (Or.inr ⟨[("name", Json.str "x")], rfl, Or.inl ⟨"slug", by decide, rfl⟩⟩),
   validate_rejects_invalid _ (Or.inl (fun _ hEq => Json.noConfusion hEq))⟩

/-- Claim C5: on success `validate` fills every omission — an absent `emoji` or
`mcpTools` becomes `none`, an absent `draft` becomes `false`, an absent `order`
becomes `999` — and removing the two optional fields from a valid entry leaves
it valid. -/
theorem validate_optional_defaults (flds : List (String × Json)) (r : AgentRecord)
    (h : validate (.obj flds) = some r) :
    (lookup flds "emoji" = none → r.emoji = none) ∧
    (lookup flds "mcpTools" = none → r.mcpTools = none) ∧
    (lookup flds "draft" = none → r.draft = false) ∧
    (lookup flds "order" = none → r.order = 999) ∧
    (∀ flds2 : List (String × Json),
      (∀ key : String, key ≠ "emoji" → key ≠ "mcpTools" →
        lookup flds2 key = lookup flds key) →
      lookup flds2 "emoji" = none → lookup flds2 "mcpTools" = none →
      validate (.obj flds2) = some { r with emoji := none, mcpTools := none }) := by
  obtain ⟨h1, h2, h3, h4, h5, h6, h7, h8, h9, h10, h11, h12, h13, h14, h15,
    h16, h17⟩ := (validate_obj_some_iff flds r).mp h
  refine ⟨?_, ?_, ?_, ?_, ?_⟩
  · intro he
    rw [he] at h6
    exact (Option.some.inj h6).symm
  · intro hm
    rw [hm] at h14
    exact (Option.some.inj h14).symm
  · intro hd
    rw [hd] at h16
    exact (Option.some.inj h16).symm
  · intro ho
    rw [ho] at h17
    exact (Option.some.inj h17).symm
  · intro flds2 hagree he2 hm2
    refine (validate_obj_some_iff flds2 _).mpr
      ⟨?_, ?_, ?_, ?_, ?_, ?_, ?_, ?_, ?_, ?_, ?_, ?_, ?_, ?_, ?_, ?_, ?_⟩
    · rw [fieldStr, hagree "name" (by decide) (by decide)]
      exact h1
    · rw [fieldStr, hagree "slug" (by decide) (by decide)]
      exact h2
    · rw [fieldStr, hagree "tagline" (by decide) (by decide)]
      exact h3
    · rw [fieldStr, hagree "description" (by decide) (by decide)]
      exact h4
    · rw [fieldStr, hagree "accentColor" (by decide) (by decide)]
      exact h5
    · rw [he2]
      rfl
    · rw [fieldList, hagree "about" (by decide) (by decide)]
      exact h7
    · rw [fieldList, hagree "specialties" (by decide) (by decide)]
      exact h8
    · rw [fieldList, hagree "skills" (by decide) (by decide)]
      exact h9
    · rw [fieldList, hagree "useCases" (by decide) (by decide)]
      exact h10
    · rw [fieldList, hagree "codeExamples" (by decide) (by decide)]
      exact h11
    · rw [fieldList, hagree "does" (by decide) (by decide)]
      exact h12
    · rw [fieldList, hagree "doesNot" (by decide) (by decide)]
      exact h13
    · rw [hm2]
      rfl
    · rw [fieldPhilosophy, hagree "philosophy" (by decide) (by decide)]
      exact h15
    · rw [hagree "draft" (by decide) (by decide)]
      exact h16
    · rw [hagree "order" (by decide) (by decide)]
      exact h17

/-- Claim C5 witness: the minimal valid entry (no optional fields) validates,
and the defaults are exactly `emoji = none`, `mcpTools = none`, `draft = false`,
`order = 999`. -/
theorem validate_optional_defaults_witness :
    validate (.obj minimalEntryFields) = some minimalRecord ∧
    minimalRecord.emoji = none ∧ minimalRecord.mcpTools = none ∧
    minimalRecord.draft = false ∧ minimalRecord.order = 999 ∧
    validate (.obj minimalEntryFields) =
      some { minimalRecord with emoji := none, mcpTools := none } := by
  have h := validate_optional_defaults minimalEntryFields minimalRecord rfl
  exact ⟨rfl, h.1 rfl, h.2.1 rfl, h.2.2.1 rfl, h.2.2.2.1 rfl,
    h.2.2.2.2 minimalEntryFields (fun _ _ _ => rfl) rfl rfl⟩

/-- Claim C6: two distinct entries sharing the slug "marco-astro" both pass
validation — the schema has no cross-entry uniqueness check, so no
DuplicateSlugError is ever raised. -/
theorem duplicate_slug_unchecked :
    validate firstDuplicateEntry = some firstDuplicateRecord ∧
    validate secondDuplicateEntry = some secondDuplicateRecord ∧
    firstDuplicateRecord.slug = secondDuplicateRecord.slug ∧
    firstDuplicateRecord ≠ secondDuplicateRecord :=
  ⟨rfl, rfl, rfl, by decide⟩

/-- Claim C9: `z.object` in strip mode reads only the declared keys, so adding
a field with an unknown key to an entry never changes the result of
`validate` — unknown keys are silently dropped, not rejected. -/
theorem validate_strips_unknown_keys (flds : List (String × Json)) (k : String)
    (v : Json) (hk : k ∉ schemaKeys) :
    validate (.obj (flds ++ [(k, v)])) = validate (.obj flds) := by
  have hl : ∀ key ∈ schemaKeys, lookup (flds ++ [(k, v)]) key = lookup flds key := by
    intro key hmem
    exact lookup_append_single flds v (fun hEq => hk (hEq ▸ hmem))
  apply Option.ext
  intro r
  rw [Option.mem_def, Option.mem_def, validate_obj_some_iff, validate_obj_some_iff]
  rw [fieldStr, fieldStr, fieldStr, fieldStr, fieldStr, fieldStr, fieldStr,
    fieldStr, fieldStr, fieldStr, fieldList, fieldList, fieldList, fieldList,
    fieldList, fieldList, fieldList, fieldList, fieldList, fieldList,
    fieldList, fieldList, fieldList, fieldList, fieldPhilosophy, fieldPhilosophy,
    hl "name" (by decide), hl "slug" (by decide), hl "tagline" (by decide),
    hl "description" (by decide), hl "accentColor" (by decide),
    hl "emoji" (by decide), hl "about" (by decide), hl "specialties" (by decide),
    hl "skills" (by decide), hl "useCases" (by decide),
    hl "codeExamples" (by decide), hl "does" (by decide),
    hl "doesNot" (by decide), hl "mcpTools" (by decide),
    hl "philosophy" (by decide), hl "draft" (by decide), hl "order" (by decide)]

/-- Claim C9 witness: adding an unknown key to the minimal valid entry leaves
the validated record unchanged. -/
theorem validate_strips_unknown_keys_witness :
    validate (.obj (minimalEntryFields ++ [("unknown", Json.str "x")])) =
      validate (.obj minimalEntryFields) ∧
    validate (.obj minimalEntryFields) = some minimalRecord :=
  ⟨validate_strips_unknown_keys minimalEntryFields "unknown" (Json.str "x")
    (by decide), rfl⟩

/-! ## Claims about the page assembler -/

/-- Claim C2: `assemble` renders the sections in the fixed order Hero, About,
Specialties, Skills, UseCases, Examples, DosDonts, Config, Philosophy, CTA,
and the Config section is omitted exactly when `mcpTools` is empty or absent. -/
theorem assemble_section_order (r : AgentRecord) :
    (assemble r).map sectionKind =
      ([SectionTag.hero, SectionTag.about, SectionTag.specialties,
        SectionTag.skills, SectionTag.useCases, SectionTag.examples,
        SectionTag.dosDonts]
        ++ (if r.mcpTools = none ∨ r.mcpTools = some [] then []
            else [SectionTag.config])
        ++ [SectionTag.philosophy, SectionTag.cta]) ∧
    (SectionTag.config ∉ (assemble r).map sectionKind ↔
      (r.mcpTools = none ∨ r.mcpTools = some [])) := by
  rcases hm : r.mcpTools with _ | ml
  · simp [assemble, sectionKind, hm]
  · rcases ml with _ | ⟨t, ts⟩
    · simp [assemble, sectionKind, hm]
    · simp [assemble, sectionKind, hm]

/-- A record matching the design document's empty-lists scenario: every nested
list empty, no `mcpTools`. -/
def marcoEmptyRecord : AgentRecord :=
  ⟨"Marco Astro", "marco-astro", "t", "d", "#f97316", none, [], [], [], [], [],
   [], [], none, ⟨"x", ["y"]⟩, false, 999⟩

/-- Claim C7: with all five lists empty and no `mcpTools`, `assemble` still
produces a document — exactly 9 sections, no Config section, and the Skills,
UseCases, Examples and DosDonts sections are present as empty shells. -/
theorem assemble_empty_shells (r : AgentRecord)
    (hsk : r.skills = []) (huc : r.useCases = []) (hce : r.codeExamples = [])
    (hdo : r.does = []) (hdn : r.doesNot = []) (hmc : r.mcpTools = none) :
    (assemble r).length = 9 ∧
    SectionTag.config ∉ (assemble r).map sectionKind ∧
    RenderedSection.skills [] r.accentColor ∈ assemble r ∧
    RenderedSection.useCases [] r.name ∈ assemble r ∧
    RenderedSection.examples [] ∈ assemble r ∧
    RenderedSection.dosDonts [] [] r.name ∈ assemble r := by
  refine ⟨?_, ?_, ?_, ?_, ?_, ?_⟩ <;>
    simp [assemble, sectionKind, hsk, huc, hce, hdo, hdn, hmc]

/-- Claim C7 witness: the empty-lists scenario record assembles to 9 sections
with empty shells. -/
theorem assemble_empty_shells_witness :
    (assemble marcoEmptyRecord).length = 9 ∧
    SectionTag.config ∉ (assemble marcoEmptyRecord).map sectionKind ∧
    RenderedSection.skills [] marcoEmptyRecord.accentColor ∈ assemble marcoEmptyRecord ∧
    RenderedSection.useCases [] marcoEmptyRecord.name ∈ assemble marcoEmptyRecord ∧
    RenderedSection.examples [] ∈ assemble marcoEmptyRecord ∧
    RenderedSection.dosDonts [] [] marcoEmptyRecord.name ∈ assemble marcoEmptyRecord :=
  assemble_empty_shells marcoEmptyRecord rfl rfl rfl rfl rfl rfl

/-! ## Claims about the listing aggregator -/

/-- Inserting a record permutes consing it. -/
theorem insertByOrder_perm (a : ListingRecord) (l : List ListingRecord) :
    (insertByOrder a l).Perm (a :: l) := by
  induction l with
  | nil => exact List.Perm.refl _
  | cons b l ih =>
    simp only [insertByOrder]
    split
    · exact List.Perm.refl _
    · exact (ih.cons b).trans (List.Perm.swap a b l)

/-- The insertion sort permutes its input. -/
theorem sortByOrder_perm (l : List ListingRecord) : (sortByOrder l).Perm l := by
  induction l with
  | nil => exact List.Perm.refl _
  | cons a l ih => exact (insertByOrder_perm a (sortByOrder l)).trans (ih.cons a)

/-- Inserting into a list sorted by `order` keeps it sorted. -/
theorem insertByOrder_pairwise (a : ListingRecord) (l : List ListingRecord)
    (h : l.Pairwise (fun x y => x.order ≤ y.order)) :
    (insertByOrder a l).Pairwise (fun x y => x.order ≤ y.order) := by
  induction l with
  | nil => simp [insertByOrder]
  | cons b l ih =>
    obtain ⟨hb, hl⟩ := List.pairwise_cons.mp h
    simp only [insertByOrder]
    split
    · rename_i hab
      refine List.Pairwise.cons ?_ h
      intro x hx
      rcases List.mem_cons.mp hx with rfl | hx2
      · exact hab
      · exact le_trans hab (hb x hx2)
    · rename_i hab
      refine List.Pairwise.cons ?_ (ih hl)
      intro x hx
      rcases List.mem_cons.mp ((insertByOrder_perm a l).mem_iff.mp hx) with rfl | hx2
      · exact le_of_lt (not_le.mp hab)
      · exact hb x hx2

/-- The insertion sort sorts ascending by `order`. -/
theorem sortByOrder_pairwise (l : List ListingRecord) :
    (sortByOrder l).Pairwise (fun x y => x.order ≤ y.order) := by
  induction l with
  | nil => simp [sortByOrder]
  | cons a l ih => exact insertByOrder_pairwise a _ ih

/-- Stability of one insertion, seen through an equal-`order` filter. -/
theorem filter_insertByOrder (a : ListingRecord) (l : List ListingRecord) (k : Int) :
    (insertByOrder a l).filter (fun r => decide (r.order = k)) =
      if a.order = k then a :: l.filter (fun r => decide (r.order = k))
      else l.filter (fun r => decide (r.order = k)) := by
  induction l with
  | nil =>
    by_cases hak : a.order = k <;> simp [insertByOrder, List.filter, hak]
  | cons b l ih =>
    simp only [insertByOrder]
    split
    · rename_i hab
      by_cases hak : a.order = k <;> simp [List.filter_cons, hak]
    · rename_i hab
      have hba : b.order < a.order := not_le.mp hab
      by_cases hak : a.order = k
      · have hbk : ¬ b.order = k := by
          rw [← hak]
          exact ne_of_lt hba
        simp [List.filter_cons, hbk, hak, ih]
      · simp [List.filter_cons, ih, hak]

/-- Stability of the sort: records with any fixed `order` value keep their
relative input order. -/
theorem filter_sortByOrder (l : List ListingRecord) (k : Int) :
    (sortByOrder l).filter (fun r => decide (r.order = k)) =
      l.filter (fun r => decide (r.order = k)) := by
  induction l with
  | nil => rfl
  | cons a l ih =>
    by_cases hak : a.order = k <;>
      simp [sortByOrder, filter_insertByOrder, hak, ih, List.filter_cons]

/-- Claim C3: `listAgents` drops exactly the `draft` records, keeps every other
record exactly once (the sorted list is a permutation of the non-draft input),
sorts ascending by `order`, and is stable — for every `order` value the
records carrying it keep their original relative order. -/
theorem listAgents_sorted_stable (rs : List ListingRecord) :
    ∃ sorted : List ListingRecord,
      listAgents rs = sorted.map project ∧
      sorted.Perm (rs.filter fun r => !r.draft) ∧
      sorted.Pairwise (fun x y => x.order ≤ y.order) ∧
      ∀ k : Int, sorted.filter (fun r => decide (r.order = k)) =
        (rs.filter fun r => !r.draft).filter (fun r => decide (r.order = k)) :=
  ⟨sortByOrder (rs.filter fun r => !r.draft), rfl, sortByOrder_perm _,
   sortByOrder_pairwise _, fun k => filter_sortByOrder _ k⟩

/-- Claim C8: `listAgents` is a total function whose output is never longer
than its input, every non-draft record appears projected in the output, and a
record with a missing `image` is projected with the placeholder path. -/
theorem listAgents_length_and_placeholder (rs : List ListingRecord) :
    (listAgents rs).length ≤ rs.length ∧
    ∀ r ∈ rs, r.draft = false →
      project r ∈ listAgents rs ∧
      (r.image = none → (project r).image = AGENT_PLACEHOLDER_IMAGE) := by
  constructor
  · rw [listAgents, List.length_map, (sortByOrder_perm _).length_eq]
    exact List.length_filter_le _ _
  · intro r hr hdraft
    constructor
    · have hmem : r ∈ rs.filter (fun r => !r.draft) :=
        List.mem_filter.mpr ⟨hr, by simp [hdraft]⟩
      have hsorted : r ∈ sortByOrder (rs.filter fun r => !r.draft) :=
        ((sortByOrder_perm _).mem_iff).mpr hmem
      exact List.mem_map_of_mem project hsorted
    · intro him
      simp [project, him]

/-- A listing record with no image, for the C8 witness. -/
def sampleListingRecord : ListingRecord :=
  ⟨"Marco Astro", "marco-astro", "t", "Astro & Sites Statiques", none,
   "#f97316", false, 1⟩

/-- Claim C8 witness: on a one-record input the bound and the placeholder
fallback hold concretely. -/
theorem listAgents_length_and_placeholder_witness :
    (listAgents [sampleListingRecord]).length ≤ 1 ∧
    project sampleListingRecord ∈ listAgents [sampleListingRecord] ∧
    (project sampleListingRecord).image = AGENT_PLACEHOLDER_IMAGE := by
  obtain ⟨hlen, hmem⟩ := listAgents_length_and_placeholder [sampleListingRecord]
  obtain ⟨hin, himg⟩ := hmem sampleListingRecord (by simp) rfl
  exact ⟨hlen, hin, himg rfl⟩

/-- Claim C10: the hardcoded `AGENTS_LIST` has 8 entries, pairwise-distinct
slugs, and every entry's image is the placeholder constant. -/
theorem AGENTS_LIST_invariants :
    AGENTS_LIST.length = 8 ∧
    (AGENTS_LIST.map AgentCardData.slug).Nodup ∧
    AGENTS_LIST.map AgentCardData.image =
      List.replicate 8 AGENT_PLACEHOLDER_IMAGE := by
  refine ⟨rfl, ?_, rfl⟩
  decide

end Sqwad
